import Mathlib

/-!
Verification of `markdown-it-table-of-contents` (src/index.js).

The development shallowly embeds the plugin's code in Lean:
strings become `String`/`List Char`, JS numbers used as headline levels
become `JsNum` (a finite integer or `Infinity`, which `Math.min` of an
empty spread produces), nullable values become `Option`, and the
exception thrown by the `toc_body` renderer becomes `Except`.

The mutable nested tree with parent pointers built by
`flatHeadlineItemsToNestedTree` is embedded as a zipper: the algorithm
only ever touches the right-most spine of the tree (it appends children
to `currentRootNode`, descends into `prevListItem`, and walks parent
pointers back up), so the mutable state is represented by the spine
itself, a non-empty stack of nodes whose head is `prevListItem` and
whose tail are its ancestors (`currentRootNode` is the second entry,
the partially built root is the last).  Re-attaching the head to its
parent (`collapseTop`) models following one `parent` pointer.
-/

namespace MarkdownItToc

/-! ## JavaScript string and value primitives -/

/-- Truthiness of a nullable JS string: `null` and `""` are falsy. -/
def jsTruthy : Option String → Bool
  | none => false
  | some s => !(s == "")

/-- JS template-literal interpolation of a nullable string:
`` `${x}` `` prints `null` as the literal string `"null"`. -/
def jsStr : Option String → String
  | none => "null"
  | some s => s

/-- The JS expression `x || null` on a nullable string: a falsy `x`
(absent or empty) becomes `null`. -/
def jsOrNull (o : Option String) : Option String :=
  if jsTruthy o then o else none

/-- The character class `\s` of JS regular expressions (also the set
trimmed by `String.prototype.trim`): tab, line feed, vertical tab, form
feed, carriage return, space, NBSP, Ogham space mark, the U+2000-200A
range, line/paragraph separator, narrow NBSP, medium mathematical
space, ideographic space and BOM. -/
def isJsWhitespace (c : Char) : Bool :=
  decide (c.toNat = 9 ∨ c.toNat = 10 ∨ c.toNat = 11 ∨ c.toNat = 12 ∨ c.toNat = 13 ∨
    c.toNat = 32 ∨ c.toNat = 160 ∨ c.toNat = 5760 ∨
    (8192 ≤ c.toNat ∧ c.toNat ≤ 8202) ∨ c.toNat = 8232 ∨ c.toNat = 8233 ∨
    c.toNat = 8239 ∨ c.toNat = 8287 ∨ c.toNat = 12288 ∨ c.toNat = 65279)

/-- `String.prototype.trim`: drop JS whitespace from both ends. -/
def jsTrim (l : List Char) : List Char :=
  ((l.dropWhile isJsWhitespace).reverse.dropWhile isJsWhitespace).reverse

/-- Shallow model of `String.prototype.toLowerCase`, restricted to the
ASCII letters (the only characters the plugin's own code feeds it that
are affected). -/
def jsToLowerChar (c : Char) : Char :=
  if 65 ≤ c.toNat ∧ c.toNat ≤ 90 then Char.ofNat (c.toNat + 32) else c

/-- One pass of `replace(/\s+/g, '-')`: `prevWs` records whether the
previous character belonged to the current whitespace run. -/
def collapseWsAux : Bool → List Char → List Char
  | _, [] => []
  | prevWs, c :: rest =>
    if isJsWhitespace c then
      if prevWs then collapseWsAux true rest
      else Char.ofNat 45 :: collapseWsAux true rest
    else c :: collapseWsAux false rest

/-- `replace(/\s+/g, '-')`: every maximal whitespace run becomes one
hyphen. -/
def collapseWs (l : List Char) : List Char :=
  collapseWsAux false l

/-- The characters `encodeURIComponent` leaves unescaped:
ASCII digits and letters together with `- _ . ! ~ *`, the apostrophe,
`(` and `)` (code points 45, 95, 46, 33, 126, 42, 39, 40, 41). -/
def isUriUnreserved (c : Char) : Bool :=
  decide ((48 ≤ c.toNat ∧ c.toNat ≤ 57) ∨ (65 ≤ c.toNat ∧ c.toNat ≤ 90) ∨
    (97 ≤ c.toNat ∧ c.toNat ≤ 122) ∨ c.toNat = 45 ∨ c.toNat = 95 ∨ c.toNat = 46 ∨
    c.toNat = 33 ∨ c.toNat = 126 ∨ c.toNat = 42 ∨ c.toNat = 39 ∨ c.toNat = 40 ∨
    c.toNat = 41)

/-- Upper-case hexadecimal digit, as used by `encodeURIComponent`. -/
def hexUpper : Nat → Char
  | 0 => '0' | 1 => '1' | 2 => '2' | 3 => '3' | 4 => '4'
  | 5 => '5' | 6 => '6' | 7 => '7' | 8 => '8' | 9 => '9'
  | 10 => 'A' | 11 => 'B' | 12 => 'C' | 13 => 'D' | 14 => 'E'
  | 15 => 'F' | _ => '0'

/-- UTF-8 encoding of a code point, as a list of byte values. -/
def utf8Bytes (n : Nat) : List Nat :=
  if n < 128 then [n]
  else if n < 2048 then [192 + n / 64, 128 + n % 64]
  else if n < 65536 then [224 + n / 4096, 128 + (n / 64) % 64, 128 + n % 64]
  else [240 + n / 262144, 128 + (n / 4096) % 64, 128 + (n / 64) % 64, 128 + n % 64]

/-- Percent-escape of one character: `%HH` for each UTF-8 byte. -/
def percentEncodeChar (c : Char) : List Char :=
  (utf8Bytes c.toNat).flatMap fun b => ['%', hexUpper (b / 16), hexUpper (b % 16)]

/-- `encodeURIComponent`: unreserved characters pass through, all other
characters are percent-escaped byte by byte. -/
def encodeURIComponentL (l : List Char) : List Char :=
  l.flatMap fun c => if isUriUnreserved c then [c] else percentEncodeChar c

/-- The default slug function, src/index.js:13-15:
`encodeURIComponent(String(s).trim().toLowerCase().replace(/\s+/g, '-'))`. -/
def slugify (s : String) : String :=
  ⟨encodeURIComponentL (collapseWs ((jsTrim s.data).map jsToLowerChar))⟩

/-! ## Headline levels as JS numbers

`Math.min(...headlineItems.map(item => item.level))` over an empty
array yields `Infinity`, and the root level is then `Infinity - 1 =
Infinity`, so levels are modelled as an integer or infinity. -/

/-- A JS number used as a headline level: a finite integer or
`Infinity`. -/
inductive JsNum where
  | fin (n : Int)
  | inf
deriving DecidableEq, Repr

/-- `<` on `JsNum` (JS numeric comparison; `Infinity` exceeds every
finite value). -/
def JsNum.lt : JsNum → JsNum → Bool
  | .fin a, .fin b => a < b
  | .fin _, .inf => true
  | .inf, _ => false

/-- `Math.min` on two `JsNum`s. -/
def JsNum.min2 (a b : JsNum) : JsNum :=
  if JsNum.lt b a then b else a

/-- Subtracting `1` from a level: `Infinity - 1` is `Infinity` in JS. -/
def JsNum.sub1 : JsNum → JsNum
  | .fin n => .fin (n - 1)
  | .inf => .inf

/-! ## Tokens and options -/

/-- The slice of a markdown-it token the plugin reads or writes:
`type`, `tag`, the attribute pairs, the inline children, the raw
`content`, the `markup` and `nesting` fields set by `state.push`. -/
structure Token where
  type : String := ""
  tag : String := ""
  attrs : List (String × String) := []
  children : List Token
  content : String := ""
  markup : String := ""
  nesting : Int := 0

/-- The plugin options (src/index.js:16-30).  The marker pattern is
kept outside this record, as a predicate on the remaining source (see
`tocRule`); `format` receives the raw text and the (possibly
transformed) anchor — the `md` argument is the host renderer and is
external to this repository. -/
structure Options where
  includeLevel : List Int
  containerClass : String
  slugify : String → String → String
  listType : String
  format : String → Option String → String
  forceFullToc : Bool
  containerHeaderHtml : Option String
  containerFooterHtml : Option String
  transformLink : Option (Option String → Option String)
  listAttrs : String

/-- The `defaults` record, src/index.js:16-30.  The default `format`
delegates to `md.renderInline`, which belongs to the host pipeline,
not to this repository; on the plain heading text the claims exercise
it is the identity, and it is modelled as such. -/
def defaults : Options where
  includeLevel := [1, 2]
  containerClass := "table-of-contents"
  slugify := fun text _rawContent => slugify text
  listType := "ul"
  format := fun content _anchor => content
  forceFullToc := false
  containerHeaderHtml := none
  containerFooterHtml := none
  transformLink := none
  listAttrs := ""

/-! ## Headline extractor (src/index.js:55-111) -/

/-- A `HeadlineItem` (src/index.js:32-37): the level together with the
nullable text and anchor accumulated for one heading. -/
structure HeadlineItem where
  level : Int
  text : Option String
  anchor : Option String
deriving DecidableEq, Repr

/-- `findExistingIdAttr` (src/index.js:97-111): the value of the first
`id` attribute, if any.  The JS `Array.isArray`/length guards only
reject malformed attribute entries, which the pair representation
rules out. -/
def findExistingIdAttr (token : Token) : Option String :=
  (token.attrs.find? fun attr => attr.1 == "id").map (·.2)

/-- Leading decimal digits of a character list, or `none` when there
are none (`parseInt` returns `NaN` then). -/
def decDigitsValue (l : List Char) : Option Nat :=
  let ds := l.takeWhile (·.isDigit)
  if ds.isEmpty then none
  else some (ds.foldl (fun acc c => acc * 10 + (c.toNat - 48)) 0)

/-- `parseInt(s, 10)`: skip leading whitespace, read an optional sign
and then a decimal-digit prefix; `none` models `NaN`. -/
def jsParseInt (l : List Char) : Option Int :=
  let l := l.dropWhile isJsWhitespace
  match l with
  | '-' :: rest => (decDigitsValue rest).map fun n => -(n : Int)
  | '+' :: rest => (decDigitsValue rest).map fun n => (n : Int)
  | _ => (decDigitsValue l).map fun n => (n : Int)

/-- Drop the first occurrence of a character:
`String.prototype.replace` with a plain-string pattern replaces only
the first match. -/
def removeFirstChar (c : Char) : List Char → List Char
  | [] => []
  | x :: rest => if x == c then rest else x :: removeFirstChar c rest

/-- `parseInt(token.tag.toLowerCase().replace('h', ''), 10)`
(src/index.js:62); `none` models `NaN`, which the following
`levels.indexOf(level) >= 0` test always rejects. -/
def parseHeadingLevel (tag : String) : Option Int :=
  jsParseInt (removeFirstChar 'h' (tag.data.map jsToLowerChar))

/-- The text content of an inline token (src/index.js:72-74): the
concatenated `content` of its `text` and `code_inline` children. -/
def textContentOf (token : Token) : String :=
  ((token.children.filter fun c => c.type == "text" || c.type == "code_inline").map
    (·.content)).foldl (· ++ ·) ""

/-- The state of the extractor's token walk: the emitted headings and
the currently open accumulator (`currentHeading`). -/
structure ExtractState where
  headings : List HeadlineItem
  currentHeading : Option HeadlineItem

/-- One iteration of the `tokens.forEach` walk in
`findHeadlineElements` (src/index.js:59-86). -/
def headlineStep (levels : List Int) (options : Options)
    (st : ExtractState) (token : Token) : ExtractState :=
  if token.type == "heading_open" then
    -- src 60-70
    let id := findExistingIdAttr token
    match parseHeadingLevel token.tag with
    | some level =>
      if level ∈ levels then
        { st with currentHeading := some ⟨level, none, jsOrNull id⟩ }
      else st
    | none => st  -- NaN level: `levels.indexOf(NaN) >= 0` is never true
  else if st.currentHeading.isSome ∧ token.type == "inline" then
    -- src 71-79
    match st.currentHeading with
    | some ch =>
      let textContent := textContentOf token
      let ch := { ch with text := some textContent }
      let ch :=
        if jsTruthy ch.anchor then ch
        else { ch with anchor := some (options.slugify textContent token.content) }
      { st with currentHeading := some ch }
    | none => st  -- impossible under the `isSome` guard
  else if token.type == "heading_close" then
    -- src 80-85
    match st.currentHeading with
    | some ch => ⟨st.headings ++ [ch], none⟩
    | none => { st with currentHeading := none }
  else st

/-- `findHeadlineElements` (src/index.js:55-89). -/
def findHeadlineElements (levels : List Int) (tokens : List Token)
    (options : Options) : List HeadlineItem :=
  (tokens.foldl (headlineStep levels options) ⟨[], none⟩).headings

/-- `getMinLevel` (src/index.js:118-120):
`Math.min(...headlineItems.map(item => item.level))`; the empty spread
yields `Infinity`. -/
def getMinLevel (headlineItems : List HeadlineItem) : JsNum :=
  headlineItems.foldl (fun acc item => acc.min2 (.fin item.level)) .inf

/-! ## Outline tree builder (src/index.js:130-174)

A `TocItem` holds `level`, `text`, `anchor` and `children`; the JS
`parent` back-pointer is represented by the zipper stack described in
the file header, so it does not appear as a field. -/

/-- A node of the TOC tree (src/index.js:39-46, minus the `parent`
back-pointer). -/
structure TocItem where
  level : JsNum
  text : Option String
  anchor : Option String
  children : List TocItem

/-- Re-attach the focused node (`prevListItem`, the stack head) to its
parent: one step of following a `parent` pointer.  On a singleton
stack the focus is the root, which has `parent = null`; the walk in
the decrease branch never reaches it for stacks produced by
`flatHeadlineItemsToNestedTree` (every item's level is at least the
global minimum), and the clamp keeps the embedding total. -/
def collapseTop : List TocItem → List TocItem
  | a :: b :: rest => ⟨b.level, b.text, b.anchor, b.children ++ [a]⟩ :: rest
  | l => l

/-- Iterated `collapseTop`: walking `k` parent pointers. -/
def collapseIter : Nat → List TocItem → List TocItem
  | 0, st => st
  | k + 1, st => collapseIter k (collapseTop st)

/-- Collapse the spine below a focused node, yielding the finished
tree: each ancestor absorbs the already-finished node as its last
child. -/
def collapseFrom (a : TocItem) : List TocItem → TocItem
  | [] => a
  | b :: rest => collapseFrom ⟨b.level, b.text, b.anchor, b.children ++ [a]⟩ rest

/-- Collapse the whole spine, yielding the finished tree. -/
def collapseAll : List TocItem → TocItem
  | [] => ⟨.inf, none, none, []⟩  -- unreachable: the stack is never empty
  | a :: rest => collapseFrom a rest

/-- `addListItem` (src/index.js:130-134) with the descriptor's
content, in zipper form: the new node is appended to the head's child
list and becomes the new focus, which the stack encodes by pushing
it. -/
def pushItem (item : HeadlineItem) (st : List TocItem) : List TocItem :=
  ⟨.fin item.level, item.text, item.anchor, []⟩ :: st

/-- The body of the level-increase loop (src/index.js:153-156),
iterated `diff` times: `currentRootNode = prevListItem` followed by
`prevListItem = addListItem(headlineItem.level, null, null,
currentRootNode)` descends into the focus and appends a fresh
`null`/`null` node at the item's level. -/
def pushFreshLoop (level : Int) : Nat → List TocItem → List TocItem
  | 0, st => st
  | k + 1, st => ⟨.fin level, none, none, []⟩ :: pushFreshLoop level k st

/-- `prevListItem.text = headlineItem.text; prevListItem.anchor =
headlineItem.anchor` (src/index.js:157-158). -/
def setHead (text anchor : Option String) : List TocItem → List TocItem
  | [] => []
  | h :: t => ⟨h.level, text, anchor, h.children⟩ :: t

/-- One iteration of the `headlineItems.forEach` in
`flatHeadlineItemsToNestedTree` (src/index.js:149-171).  The stack
head is `prevListItem`; `currentRootNode` is the next entry (the head
itself when the stack is the initial singleton root, matching the
initialisation in src/index.js:145-147). -/
def tocStep (st : List TocItem) (headlineItem : HeadlineItem) : List TocItem :=
  match st with
  | [] => []  -- unreachable: the stack always holds at least the root
  | prevListItem :: _ =>
    if JsNum.lt prevListItem.level (.fin headlineItem.level) then
      -- src 151-158: descend one synthetic step per unit of difference,
      -- then overwrite the deepest node with the descriptor's content
      let diff :=
        match prevListItem.level with
        | .fin p => (headlineItem.level - p).toNat
        | .inf => 0  -- unreachable: `lt` above is false for `.inf`
      setHead headlineItem.text headlineItem.anchor
        (pushFreshLoop headlineItem.level diff st)
    else if prevListItem.level = .fin headlineItem.level then
      -- src 161-162: append a sibling under `currentRootNode`
      pushItem headlineItem (collapseTop st)
    else if JsNum.lt (.fin headlineItem.level) prevListItem.level then
      -- src 165-169: walk `currentRootNode` up `prevListItem.level -
      -- headlineItem.level` parent pointers, then append.  Reaching
      -- `currentRootNode` from the focus costs one extra `collapseTop`.
      let walk :=
        match prevListItem.level with
        | .fin p => (p - headlineItem.level).toNat
        | .inf => 0  -- JS would loop forever; unreachable from the entry point
      pushItem headlineItem (collapseIter (walk + 1) st)
    else st  -- no branch taken (JS trichotomy: never reached)

/-- `flatHeadlineItemsToNestedTree` (src/index.js:141-174): fold the
descriptors over the spine stack seeded with the root node
(`level = getMinLevel(headlineItems) - 1`, src/index.js:143), then
collapse the spine into the finished tree. -/
def flatHeadlineItemsToNestedTree (headlineItems : List HeadlineItem) : TocItem :=
  collapseAll
    (headlineItems.foldl tocStep [⟨(getMinLevel headlineItems).sub1, none, none, []⟩])

/-! ## Outline renderer (src/index.js:181-199) -/

/-- The `if (counter == 0)` preamble of `tocItemToHtml`
(src/index.js:182-185): the extra list attributes appear only on the
outermost list. -/
def extraListAttributes (options : Options) (counter : Nat) : String :=
  if counter == 0 then
    if options.listAttrs ≠ "" then " " ++ options.listAttrs else ""
  else ""

/-- The `tocItem.children.map(...).join('')` body of `tocItemToHtml`
(src/index.js:186-198), one child at a time.  The recursive
`tocItemToHtml(childItem, options, md, counter + 1)` call of
src/index.js:197 appears with its body unfolded once (it opens a list,
renders the grandchildren, closes the list), which makes the recursion
structural; `tocItemToHtml` below re-wraps it and agrees with this
unfolding definitionally. -/
def tocItemsToHtml (options : Options) : List TocItem → Nat → String
  | [], _ => ""
  | ⟨_, tx, an, ch⟩ :: rest, counter =>
    let anchor :=
      match options.transformLink with
      | some f => f an
      | none => an
    let text :=
      if jsTruthy tx then
        some (options.format (tx.getD "") anchor)
      else none  -- `childItem.text ? options.format(...) : null`
    let li := "<li>" ++
      (if jsTruthy anchor then
        -- `` `<a href="#${anchor}">${text}</a>` `` — a null `text`
        -- interpolates as the string "null"
        "<a href=\"#" ++ anchor.getD "" ++ "\">" ++ jsStr text ++ "</a>"
      else text.getD "")  -- `(text || '')`: falsy `text` contributes nothing
    li ++
      (if ch.length > 0 then
        "<" ++ options.listType ++ extraListAttributes options (counter + 1) ++ ">" ++
          tocItemsToHtml options ch (counter + 1) ++ "</" ++ options.listType ++ ">"
       else "") ++ "</li>" ++ tocItemsToHtml options rest counter

/-- `tocItemToHtml` (src/index.js:181-199): open the configured list
element (with the extra attributes only at `counter == 0`), render
each child as a list item, close the list. -/
def tocItemToHtml (options : Options) (tocItem : TocItem) (counter : Nat) : String :=
  "<" ++ options.listType ++ extraListAttributes options counter ++ ">" ++
    tocItemsToHtml options tocItem.children counter ++ "</" ++ options.listType ++ ">"

/-! ## Marker integration (src/index.js:201-281) -/

/-- The inline-rule state the plugin reads and writes: the source, the
scan position, the end of the inline content and the token stream. -/
structure InlineState where
  src : List Char
  pos : Nat
  posMax : Nat
  tokens : List Token

/-- `String.prototype.indexOf(c, start)`, returning `none` for `-1`. -/
def indexOfFrom (c : Char) (l : List Char) (start : Nat) : Option Nat :=
  match (l.drop start).findIdx? (· == c) with
  | some i => some (start + i)
  | none => none

/-- The `toc_open` token pushed by the rule, with its `markup` set
(src/index.js:227-228). -/
def tocOpenToken : Token :=
  { type := "toc_open", tag := "toc", nesting := 1, markup := "[[toc]]", children := [] }

/-- The `toc_body` token pushed by the rule (src/index.js:229). -/
def tocBodyToken : Token :=
  { type := "toc_body", tag := "", nesting := 0, children := [] }

/-- The `toc_close` token pushed by the rule (src/index.js:230). -/
def tocCloseToken : Token :=
  { type := "toc_close", tag := "toc", nesting := -1, children := [] }

/-- The inline rule `toc` (src/index.js:206-241), parameterised by the
marker test `patternTest`, which models
`tocRegexp.exec(state.src.substr(state.pos))` followed by the
truthy-group filter and the `match.length < 1` check.  Returns the JS
return value together with the updated state. -/
def tocRule (patternTest : List Char → Bool) (state : InlineState)
    (silent : Bool) : Bool × InlineState :=
  -- Reject if the token does not start with [ (src 211-213)
  if state.src.get? state.pos ≠ some '[' then (false, state)
  -- Don't run any pairs in validation mode (src 215-217)
  else if silent then (false, state)
  -- Detect TOC markdown (src 220-224)
  else if ¬ patternTest (state.src.drop state.pos) then (false, state)
  else
    -- Build content (src 227-230)
    let tokens := state.tokens ++ [tocOpenToken, tocBodyToken, tocCloseToken]
    -- Update pos so the parser can continue (src 233-238)
    let newPos :=
      match indexOfFrom '\n' state.src state.pos with
      | some newline => newline
      | none => state.pos + state.posMax + 1
    (true, { state with tokens := tokens, pos := newPos })

/-- Does `[[toc]]` (case-insensitively) start at the head of the given
character list?  This is the anchored core of the default
`markerPattern` `/^\[\[toc\]\]/im`. -/
def matchesTocAt : List Char → Bool
  | '[' :: '[' :: c1 :: c2 :: c3 :: ']' :: ']' :: _ =>
    jsToLowerChar c1 == 't' && jsToLowerChar c2 == 'o' && jsToLowerChar c3 == 'c'
  | _ => false

/-- Split on line feeds; with the `m` flag, `^` matches exactly at the
start of each of these segments, and the marker literal itself cannot
span a line feed. -/
def linesOf : List Char → List (List Char)
  | [] => [[]]
  | c :: rest =>
    if c == '\n' then [] :: linesOf rest
    else
      match linesOf rest with
      | [] => [[c]]  -- unreachable: `linesOf` never returns []
      | line :: more => (c :: line) :: more

/-- The default `markerPattern` `/^\[\[toc\]\]/im` (src/index.js:20)
applied to the remaining source: with the `m` flag the anchor matches
at the start of every line of the remainder, not only at its first
character. -/
def defaultMarkerTest (s : List Char) : Bool :=
  (linesOf s).any matchesTocAt

/-! ## Renderer rules (src/index.js:243-272) -/

/-- `md.renderer.rules.toc_open` (src/index.js:243-251). -/
def tocOpenHtml (options : Options) : String :=
  "<div class=\"" ++ options.containerClass ++ "\">" ++
    (if jsTruthy options.containerHeaderHtml then options.containerHeaderHtml.getD ""
     else "")

/-- `md.renderer.rules.toc_close` (src/index.js:253-261). -/
def tocCloseHtml (options : Options) : String :=
  (if jsTruthy options.containerFooterHtml then options.containerFooterHtml.getD ""
   else "") ++ "</div>"

/-- `md.renderer.rules.toc_body` (src/index.js:263-272):
`gstateTokens` is the captured document token stream. The JS `throw`
is modelled by `Except.error`. -/
def tocBodyRule (options : Options) (gstateTokens : List Token) : Except String String :=
  if options.forceFullToc then
    Except.error "forceFullToc was removed in version 0.5.0. For more information, see https://github.com/Oktavilla/markdown-it-table-of-contents/pull/41"
  else
    let headlineItems := findHeadlineElements options.includeLevel gstateTokens options
    let toc := flatHeadlineItemsToNestedTree headlineItems
    Except.ok (tocItemToHtml options toc 0)

/-- The markup the host renderer assembles for the placeholder triple:
`toc_open`, `toc_body`, `toc_close` in document order. -/
def renderTocTriple (options : Options) (gstateTokens : List Token) :
    Except String String :=
  (tocBodyRule options gstateTokens).map fun body =>
    tocOpenHtml options ++ body ++ tocCloseHtml options

/-! ## Provenance-instrumented builder

To reason about which tree nodes received their `text`/`anchor` from a
descriptor (as opposed to untouched synthetic fillers), the builder is
replayed with a ghost `fromDescriptor` flag: `addListItem` calls that
carry a descriptor's content and the overwrite at the end of the
increase loop set it, the fresh synthetic nodes and the root do not.
Erasing the flag recovers `flatHeadlineItemsToNestedTree` exactly
(`erase_buildI`, proved below), so the instrumentation adds no
behaviour. -/

/-- A `TocItem` with the ghost provenance flag. -/
structure TocItemI where
  level : JsNum
  text : Option String
  anchor : Option String
  fromDescriptor : Bool
  children : List TocItemI

/-- Erase the ghost flag from a forest. -/
def eraseForest : List TocItemI → List TocItem
  | [] => []
  | ⟨lv, tx, an, _, ch⟩ :: rest => ⟨lv, tx, an, eraseForest ch⟩ :: eraseForest rest

/-- Erase the ghost flag from a node. -/
def eraseItem (t : TocItemI) : TocItem :=
  ⟨t.level, t.text, t.anchor, eraseForest t.children⟩

/-- `collapseTop` on instrumented stacks. -/
def collapseTopI : List TocItemI → List TocItemI
  | a :: b :: rest => ⟨b.level, b.text, b.anchor, b.fromDescriptor, b.children ++ [a]⟩ :: rest
  | l => l

/-- Iterated `collapseTopI`. -/
def collapseIterI : Nat → List TocItemI → List TocItemI
  | 0, st => st
  | k + 1, st => collapseIterI k (collapseTopI st)

/-- `collapseFrom` on instrumented stacks. -/
def collapseFromI (a : TocItemI) : List TocItemI → TocItemI
  | [] => a
  | b :: rest =>
    collapseFromI ⟨b.level, b.text, b.anchor, b.fromDescriptor, b.children ++ [a]⟩ rest

/-- `collapseAll` on instrumented stacks. -/
def collapseAllI : List TocItemI → TocItemI
  | [] => ⟨.inf, none, none, false, []⟩
  | a :: rest => collapseFromI a rest

/-- `pushItem` instrumented: a node created directly with a
descriptor's content is marked `fromDescriptor`. -/
def pushItemI (item : HeadlineItem) (st : List TocItemI) : List TocItemI :=
  ⟨.fin item.level, item.text, item.anchor, true, []⟩ :: st

/-- `pushFreshLoop` instrumented: synthetic fillers are unmarked. -/
def pushFreshLoopI (level : Int) : Nat → List TocItemI → List TocItemI
  | 0, st => st
  | k + 1, st => ⟨.fin level, none, none, false, []⟩ :: pushFreshLoopI level k st

/-- `setHead` instrumented: overwriting the deepest node of the
increase loop with the descriptor's content marks it. -/
def setHeadI (text anchor : Option String) : List TocItemI → List TocItemI
  | [] => []
  | h :: t => ⟨h.level, text, anchor, true, h.children⟩ :: t

/-- `tocStep` instrumented. -/
def tocStepI (st : List TocItemI) (headlineItem : HeadlineItem) : List TocItemI :=
  match st with
  | [] => []
  | prevListItem :: _ =>
    if JsNum.lt prevListItem.level (.fin headlineItem.level) then
      let diff :=
        match prevListItem.level with
        | .fin p => (headlineItem.level - p).toNat
        | .inf => 0
      setHeadI headlineItem.text headlineItem.anchor
        (pushFreshLoopI headlineItem.level diff st)
    else if prevListItem.level = .fin headlineItem.level then
      pushItemI headlineItem (collapseTopI st)
    else if JsNum.lt (.fin headlineItem.level) prevListItem.level then
      let walk :=
        match prevListItem.level with
        | .fin p => (p - headlineItem.level).toNat
        | .inf => 0
      pushItemI headlineItem (collapseIterI (walk + 1) st)
    else st

/-- `flatHeadlineItemsToNestedTree` instrumented. -/
def flatHeadlineItemsToNestedTreeI (headlineItems : List HeadlineItem) : TocItemI :=
  collapseAllI
    (headlineItems.foldl tocStepI
      [⟨(getMinLevel headlineItems).sub1, none, none, false, []⟩])

/-! ## Observation functions used in the theorem statements -/

/-- The descriptor-relevant content of one instrumented node. -/
structure NodeContent where
  fromDescriptor : Bool
  level : JsNum
  text : Option String
  anchor : Option String
deriving DecidableEq, Repr

/-- Pre-order contents of an instrumented forest (node before its
children, children in order, then the right siblings). -/
def preorderContents : List TocItemI → List NodeContent
  | [] => []
  | ⟨lv, tx, an, fd, ch⟩ :: rest =>
    ⟨fd, lv, tx, an⟩ :: (preorderContents ch ++ preorderContents rest)

/-- The content a descriptor contributes to the tree. -/
def descriptorContent (d : HeadlineItem) : NodeContent :=
  ⟨true, .fin d.level, d.text, d.anchor⟩

/-- The levels of every node of a plain forest. -/
def nodeLevels : List TocItem → List JsNum
  | [] => []
  | ⟨lv, _, _, ch⟩ :: rest => lv :: (nodeLevels ch ++ nodeLevels rest)

/-- Does every child's level strictly exceed its parent's, throughout
a forest? -/
def childrenLevelsGT (lv : JsNum) : List TocItem → Bool
  | [] => true
  | c :: rest => JsNum.lt lv c.level && childrenLevelsGT lv rest

/-- Strict level increase along every parent-child edge of a forest. -/
def levelsStrictlyIncrease : List TocItem → Bool
  | [] => true
  | ⟨lv, _, _, ch⟩ :: rest =>
    childrenLevelsGT lv ch && levelsStrictlyIncrease ch && levelsStrictlyIncrease rest

/-! ## Supporting lemmas -/

/-- `x || null` only produces truthy strings. -/
theorem jsTruthy_of_jsOrNull {o : Option String} {a : String}
    (h : jsOrNull o = some a) : jsTruthy (some a) = true := by
  unfold jsOrNull at h
  split at h
  · exact h ▸ ‹jsTruthy o = true›
  · exact absurd h (by simp)

/-! ## Claims -/

/-- Claim C1 (amended): for the headline descriptor sequence with
levels `[1, 3]` and texts "A", "B", the tree builder returns a root
whose only child carries "A"; that child's sole child is a synthetic
node with null text and null anchor; the synthetic node's sole child
carries "B"; the rendered markup contains one extra unlabeled
nested-list wrapper around "B"'s item; and "A" appears as the
outermost item of both the tree and the markup. -/
theorem claim1_level_skip_bridging :
    flatHeadlineItemsToNestedTree [⟨1, some "A", some "a"⟩, ⟨3, some "B", some "b"⟩] =
      ⟨.fin 0, none, none,
        [⟨.fin 1, some "A", some "a",
          [⟨.fin 3, none, none,
            [⟨.fin 3, some "B", some "b", []⟩]⟩]⟩]⟩ ∧
    tocItemToHtml defaults
        (flatHeadlineItemsToNestedTree [⟨1, some "A", some "a"⟩, ⟨3, some "B", some "b"⟩]) 0 =
      "<ul><li><a href=\"#a\">A</a><ul><li><ul><li><a href=\"#b\">B</a></li></ul></li></ul></li></ul>" := by
  refine ⟨rfl, ?_⟩
  rw [show flatHeadlineItemsToNestedTree [⟨1, some "A", some "a"⟩, ⟨3, some "B", some "b"⟩] =
    ⟨.fin 0, none, none,
      [⟨.fin 1, some "A", some "a",
        [⟨.fin 3, none, none,
          [⟨.fin 3, some "B", some "b", []⟩]⟩]⟩]⟩ from rfl]
  simp [tocItemToHtml, tocItemsToHtml, extraListAttributes, defaults, jsTruthy, jsStr]

/-- Claim C1 is false as stated: on the sequence with levels `[1, 3]`
and texts "A", "B", the root's only child is not a synthetic node — it
carries "A" (text `some "A"`, anchor `some "a"`), so "A" does appear
in the tree. -/
theorem claim1_counterexample :
    ((flatHeadlineItemsToNestedTree [⟨1, some "A", some "a"⟩, ⟨3, some "B", some "b"⟩]).children.map
        fun c => (c.text, c.anchor)) = [(some "A", some "a")] ∧
    [((some "A" : Option String), (some "a" : Option String))] ≠ [(none, none)] :=
  ⟨rfl, by decide⟩

/-- Claim C2 is false as stated: for the descriptor sequence with
levels `[1, 4, 3]`, the built tree has a parent at level 4 whose child
has level 3 (and a synthetic level-4 node whose child is also level
4), so child levels do not strictly exceed their parents'. -/
theorem claim2_counterexample :
    levelsStrictlyIncrease
      [flatHeadlineItemsToNestedTree
        [⟨1, some "A", some "a"⟩, ⟨4, some "B", some "b"⟩, ⟨3, some "C", some "c"⟩]] = false := by
  rw [show flatHeadlineItemsToNestedTree
      [⟨1, some "A", some "a"⟩, ⟨4, some "B", some "b"⟩, ⟨3, some "C", some "c"⟩] =
    ⟨.fin 0, none, none,
      [⟨.fin 1, some "A", some "a",
        [⟨.fin 4, none, none,
          [⟨.fin 4, none, none, [⟨.fin 4, some "B", some "b", []⟩]⟩,
           ⟨.fin 3, some "C", some "c", []⟩]⟩]⟩]⟩ from rfl]
  simp [levelsStrictlyIncrease, childrenLevelsGT, JsNum.lt]

/-- Claim C5 is false as stated in its no-line-break case: on the
state with `src = "[[toc]]"`, `pos = 0`, `posMax = 7`, the rule
consumes the match but sets `pos` to `pos + posMax + 1 = 8`, strictly
past the end of the remaining content (`posMax = 7`), not to its
end. -/
theorem claim5_counterexample :
    indexOfFrom '\n' "[[toc]]".data 0 = none ∧
    (tocRule defaultMarkerTest ⟨"[[toc]]".data, 0, 7, []⟩ false).1 = true ∧
    (tocRule defaultMarkerTest ⟨"[[toc]]".data, 0, 7, []⟩ false).2.pos = 8 ∧
    (8 : Nat) ≠ 7 := by
  refine ⟨rfl, rfl, rfl, by decide⟩

/-- Claim C5 (amended): when the inline rule acts (current character
is `[`, not in validation mode, and the marker pattern matches the
remaining content), it pushes the `toc_open`/`toc_body`/`toc_close`
triple and advances the scan position to the next line feed when one
exists, and otherwise to `pos + posMax + 1`, a position strictly past
the end of the content; it returns `true` to signal the match was
consumed. -/
theorem claim5_marker_advance (test : List Char → Bool) (state : InlineState)
    (hchar : state.src.get? state.pos = some '[')
    (hmatch : test (state.src.drop state.pos) = true) :
    tocRule test state false =
      (true, { state with
        tokens := state.tokens ++ [tocOpenToken, tocBodyToken, tocCloseToken],
        pos :=
          match indexOfFrom '\n' state.src state.pos with
          | some newline => newline
          | none => state.pos + state.posMax + 1 }) := by
  rw [List.get?_eq_getElem?] at hchar
  simp [tocRule, List.get?_eq_getElem?, hchar, hmatch]

/-- Witness for `claim5_marker_advance` at `src = "[[toc]]x"`,
`pos = 0`, `posMax = 8`, where no line feed exists. -/
theorem claim5_marker_advance_witness :
    ("[[toc]]x".data.get? 0 = some '[') ∧
    defaultMarkerTest ("[[toc]]x".data.drop 0) = true ∧
    tocRule defaultMarkerTest ⟨"[[toc]]x".data, 0, 8, []⟩ false =
      (true, ⟨"[[toc]]x".data, 9, 8, [tocOpenToken, tocBodyToken, tocCloseToken]⟩) :=
  ⟨rfl, rfl, claim5_marker_advance defaultMarkerTest ⟨"[[toc]]x".data, 0, 8, []⟩ rfl rfl⟩

/-- Claim C7: whenever `forceFullToc` is truthy, the `toc_body`
renderer fails with the explicit removal error, regardless of every
other option and of the document tokens. -/
theorem claim7_forceFullToc_error (options : Options) (gstateTokens : List Token)
    (hforce : options.forceFullToc = true) :
    tocBodyRule options gstateTokens =
      Except.error "forceFullToc was removed in version 0.5.0. For more information, see https://github.com/Oktavilla/markdown-it-table-of-contents/pull/41" := by
  simp [tocBodyRule, hforce]

/-- Witness for `claim7_forceFullToc_error` with the default options
plus the removed flag. -/
theorem claim7_forceFullToc_error_witness :
    ({ defaults with forceFullToc := true } : Options).forceFullToc = true ∧
    tocBodyRule { defaults with forceFullToc := true } [] =
      Except.error "forceFullToc was removed in version 0.5.0. For more information, see https://github.com/Oktavilla/markdown-it-table-of-contents/pull/41" :=
  ⟨rfl, claim7_forceFullToc_error _ [] rfl⟩

/-- Claim C9: with the default multiline-anchored marker pattern there
is an input — here `"[x\n[[toc]]"` at position 0 — whose current
position starts with `[` but does not carry the marker, yet the rule
reports a match (the pattern matched a later line of the remaining
substring), pushes the start/body/end triple, and advances only to the
first line feed. -/
theorem claim9_match_on_later_line :
    "[x\n[[toc]]".data.get? 0 = some '[' ∧
    matchesTocAt ("[x\n[[toc]]".data.drop 0) = false ∧
    (tocRule defaultMarkerTest ⟨"[x\n[[toc]]".data, 0, 10, []⟩ false).1 = true ∧
    (tocRule defaultMarkerTest ⟨"[x\n[[toc]]".data, 0, 10, []⟩ false).2.tokens.map Token.type =
      ["toc_open", "toc_body", "toc_close"] ∧
    (tocRule defaultMarkerTest ⟨"[x\n[[toc]]".data, 0, 10, []⟩ false).2.pos = 2 :=
  ⟨rfl, rfl, rfl, rfl, rfl⟩

/-- Claim C10 (amended): a node whose anchor is non-null and
non-empty (truthy) but whose text is null or empty renders as a link
whose display text is the literal string "null" (the JS template
literal interpolates the null `text`).  A non-null but *empty* anchor
fails the renderer's truthiness test and emits no link at all (see
`claim10_counterexample`). -/
theorem claim10_null_text_link (options : Options) (rest : List TocItem)
    (counter : Nat) (lv : JsNum) (a : String) (tx : Option String)
    (htrans : options.transformLink = none)
    (ha : a ≠ "")
    (htext : tx = none ∨ tx = some "") :
    tocItemsToHtml options (⟨lv, tx, some a, []⟩ :: rest) counter =
      "<li>" ++ ("<a href=\"#" ++ a ++ "\">" ++ "null" ++ "</a>") ++ "</li>" ++
        tocItemsToHtml options rest counter := by
  rcases htext with rfl | rfl <;>
    simp [tocItemsToHtml, htrans, jsTruthy, jsStr, ha]

/-- Witness for `claim10_null_text_link`: an anchor-only node under
the default options. -/
theorem claim10_null_text_link_witness :
    defaults.transformLink = none ∧ ("x-id" : String) ≠ "" ∧
    tocItemsToHtml defaults [⟨.fin 1, none, some "x-id", []⟩] 0 =
      "<li><a href=\"#x-id\">null</a></li>" ++ tocItemsToHtml defaults [] 0 :=
  ⟨rfl, by decide,
    claim10_null_text_link defaults [] 0 (.fin 1) "x-id" none rfl (by decide) (Or.inl rfl)⟩

/-- Claim C10 is false as stated for a non-null but empty anchor, a
case its "anchor is non-null" scope covers: a heading with no
`text`/`code_inline` inline children gets `text = ""` and
`anchor = slugify("") = ""`, both non-null; the renderer's `anchor ?`
truthiness test at src/index.js:195 then emits no link at all — the
item renders as an empty `<li></li>`, not as a link with display text
"null". -/
theorem claim10_counterexample :
    findHeadlineElements [1, 2]
      [⟨"heading_open", "h1", [], [], "", "", 0⟩,
       ⟨"inline", "", [], [], "", "", 0⟩,
       ⟨"heading_close", "h1", [], [], "", "", 0⟩] defaults =
      [⟨1, some "", some ""⟩] ∧
    (some "" : Option String) ≠ none ∧
    tocItemToHtml defaults
        (flatHeadlineItemsToNestedTree [⟨1, some "", some ""⟩]) 0 =
      "<ul><li></li></ul>" := by
  refine ⟨rfl, by decide, ?_⟩
  rw [show flatHeadlineItemsToNestedTree [⟨1, some "", some ""⟩] =
    ⟨.fin 0, none, none, [⟨.fin 1, some "", some "", []⟩]⟩ from rfl]
  simp [tocItemToHtml, tocItemsToHtml, extraListAttributes, defaults, jsTruthy, jsStr]

/-- Claim C6: when no headline matches the configured levels
(including a wholly empty token stream), rendering the placeholder
does not fail and produces the container around an empty list element
with no list items. -/
theorem claim6_degenerate_empty_outline (options : Options) (gstateTokens : List Token)
    (hforce : options.forceFullToc = false)
    (hempty : findHeadlineElements options.includeLevel gstateTokens options = []) :
    renderTocTriple options gstateTokens =
      Except.ok (tocOpenHtml options ++
        ("<" ++ options.listType ++ extraListAttributes options 0 ++ ">" ++
          "</" ++ options.listType ++ ">") ++ tocCloseHtml options) := by
  simp only [renderTocTriple, tocBodyRule, hforce, hempty, Bool.false_eq_true, if_false,
    flatHeadlineItemsToNestedTree, List.foldl_nil, collapseAll, collapseFrom,
    tocItemToHtml, Except.map]
  simp [tocItemsToHtml]

/-- Witness for `claim6_degenerate_empty_outline`: the default options
on an empty token stream. -/
theorem claim6_degenerate_empty_outline_witness :
    defaults.forceFullToc = false ∧
    findHeadlineElements defaults.includeLevel [] defaults = [] ∧
    renderTocTriple defaults [] =
      Except.ok "<div class=\"table-of-contents\"><ul></ul></div>" := by
  refine ⟨rfl, rfl, ?_⟩
  rw [claim6_degenerate_empty_outline defaults [] rfl rfl]
  simp [tocOpenHtml, tocCloseHtml, extraListAttributes, defaults, jsTruthy]

/-- One extractor step never removes emitted headings. -/
theorem headlineStep_headings_extend (levels : List Int) (options : Options)
    (st : ExtractState) (t : Token) :
    ∃ l, (headlineStep levels options st t).headings = st.headings ++ l := by
  unfold headlineStep
  split
  · split
    · split
      · exact ⟨[], by simp⟩
      · exact ⟨[], by simp⟩
    · exact ⟨[], by simp⟩
  · split
    · split
      · exact ⟨[], by simp⟩
      · exact ⟨[], by simp⟩
    · split
      · split
        · exact ⟨[_], rfl⟩
        · exact ⟨[], by simp⟩
      · exact ⟨[], by simp⟩

/-- A whole extractor walk only appends to the emitted headings. -/
theorem extract_fold_headings_extend (levels : List Int) (options : Options) :
    ∀ (ts : List Token) (st : ExtractState),
      ∃ l, (ts.foldl (headlineStep levels options) st).headings = st.headings ++ l := by
  intro ts
  induction ts with
  | nil => exact fun st => ⟨[], by simp⟩
  | cons t ts ih =>
    intro st
    obtain ⟨l₁, h₁⟩ := headlineStep_headings_extend levels options st t
    obtain ⟨l₂, h₂⟩ := ih (headlineStep levels options st t)
    exact ⟨l₁ ++ l₂, by simp [h₂, h₁]⟩

/-- Claim C4 (amended): any heading whose opening token carries an
explicit `id` attribute with a non-empty value — wherever it occurs in
the token stream — yields a descriptor whose anchor is exactly that
identifier; the conclusion holds for every configured slug function,
so the slug function is never applied to that headline's text. -/
theorem claim4_id_attr_wins (options : Options) (ts1 ts2 : List Token)
    (tok inl close : Token) (level : Int) (id : String)
    (hopen : tok.type = "heading_open")
    (hid : jsOrNull (findExistingIdAttr tok) = some id)
    (hlevel : parseHeadingLevel tok.tag = some level)
    (hincl : level ∈ options.includeLevel)
    (hinl : inl.type = "inline")
    (hclose : close.type = "heading_close") :
    (findHeadlineElements options.includeLevel (ts1 ++ tok :: inl :: close :: ts2) options)[
        (ts1.foldl (headlineStep options.includeLevel options)
          ⟨[], none⟩).headings.length]? =
      some ⟨level, some (textContentOf inl), some id⟩ := by
  have htruthy := jsTruthy_of_jsOrNull hid
  unfold findHeadlineElements
  rw [List.foldl_append]
  set st1 := ts1.foldl (headlineStep options.includeLevel options) ⟨[], none⟩ with hst1
  have h2 : headlineStep options.includeLevel options st1 tok =
      { st1 with currentHeading := some ⟨level, none, some id⟩ } := by
    unfold headlineStep
    rw [if_pos (by simp [hopen]), hlevel]
    simp [hincl, hid]
  have h3 : headlineStep options.includeLevel options
      { st1 with currentHeading := some ⟨level, none, some id⟩ } inl =
      { st1 with currentHeading := some ⟨level, some (textContentOf inl), some id⟩ } := by
    unfold headlineStep
    rw [if_neg (by simp [hinl]), if_pos (by simp [hinl])]
    simp [htruthy]
  have h4 : headlineStep options.includeLevel options
      { st1 with currentHeading := some ⟨level, some (textContentOf inl), some id⟩ } close =
      ⟨st1.headings ++ [⟨level, some (textContentOf inl), some id⟩], none⟩ := by
    unfold headlineStep
    rw [if_neg (by simp [hclose]), if_neg (by simp [hclose]), if_pos (by simp [hclose])]
  rw [List.foldl_cons, h2, List.foldl_cons, h3, List.foldl_cons, h4]
  obtain ⟨l, hl⟩ := extract_fold_headings_extend options.includeLevel options ts2
    ⟨st1.headings ++ [⟨level, some (textContentOf inl), some id⟩], none⟩
  rw [hl]
  show (st1.headings ++ [_] ++ l)[st1.headings.length]? = _
  rw [List.append_assoc, List.getElem?_append_right (Nat.le_refl _), Nat.sub_self]
  simp

/-- Claim C4 fails as stated for an explicit but empty `id` attribute:
`id || null` discards it, and the anchor falls back to the slug of the
text ("hello-world"), not the attribute value. -/
theorem claim4_counterexample :
    findHeadlineElements [1, 2]
      [⟨"heading_open", "h1", [("id", "")], [], "", "", 0⟩,
       ⟨"inline", "", [], [⟨"text", "", [], [], "Hello World", "", 0⟩], "Hello World", "", 0⟩,
       ⟨"heading_close", "h1", [], [], "", "", 0⟩] defaults =
      [⟨1, some "Hello World", some "hello-world"⟩] ∧
    findExistingIdAttr ⟨"heading_open", "h1", [("id", "")], [], "", "", 0⟩ = some "" ∧
    slugify "Hello World" = "hello-world" ∧
    (some "hello-world" : Option String) ≠ some "" :=
  ⟨rfl, rfl, rfl, by decide⟩

/-- Witness for `claim4_id_attr_wins`: a single `h2` heading with
`id="custom-id"` and text "Hello World" under the default options. -/
theorem claim4_id_attr_wins_witness :
    jsOrNull (findExistingIdAttr ⟨"heading_open", "h2", [("id", "custom-id")], [], "", "", 0⟩) =
      some "custom-id" ∧
    parseHeadingLevel "h2" = some 2 ∧ (2 : Int) ∈ defaults.includeLevel ∧
    (findHeadlineElements defaults.includeLevel
      [⟨"heading_open", "h2", [("id", "custom-id")], [], "", "", 0⟩,
       ⟨"inline", "", [], [⟨"text", "", [], [], "Hello World", "", 0⟩], "Hello World", "", 0⟩,
       ⟨"heading_close", "h2", [], [], "", "", 0⟩] defaults)[
        (([] : List Token).foldl (headlineStep defaults.includeLevel defaults)
          ⟨[], none⟩).headings.length]? =
      some ⟨2, some (textContentOf
        ⟨"inline", "", [], [⟨"text", "", [], [], "Hello World", "", 0⟩], "Hello World", "", 0⟩),
        some "custom-id"⟩ :=
  ⟨rfl, rfl, by decide,
    claim4_id_attr_wins defaults [] []
      ⟨"heading_open", "h2", [("id", "custom-id")], [], "", "", 0⟩
      ⟨"inline", "", [], [⟨"text", "", [], [], "Hello World", "", 0⟩], "Hello World", "", 0⟩
      ⟨"heading_close", "h2", [], [], "", "", 0⟩ 2 "custom-id"
      rfl rfl rfl (by decide) rfl rfl⟩

/-- ASCII lowercasing neither creates nor destroys JS whitespace. -/
theorem isJsWhitespace_jsToLowerChar (c : Char) :
    isJsWhitespace (jsToLowerChar c) = isJsWhitespace c := by
  unfold jsToLowerChar
  split
  · rename_i h
    have hv : (Char.ofNat (c.toNat + 32)).toNat = c.toNat + 32 := by
      simp only [Char.ofNat, Nat.isValidChar]
      rw [dif_pos (Or.inl (by omega))]
      rfl
    simp only [isJsWhitespace, hv]
    have h1 : ¬ (c.toNat = 9 ∨ c.toNat = 10 ∨ c.toNat = 11 ∨ c.toNat = 12 ∨ c.toNat = 13 ∨
        c.toNat = 32 ∨ c.toNat = 160 ∨ c.toNat = 5760 ∨
        (8192 ≤ c.toNat ∧ c.toNat ≤ 8202) ∨ c.toNat = 8232 ∨ c.toNat = 8233 ∨
        c.toNat = 8239 ∨ c.toNat = 8287 ∨ c.toNat = 12288 ∨ c.toNat = 65279) := by omega
    have h2 : ¬ (c.toNat + 32 = 9 ∨ c.toNat + 32 = 10 ∨ c.toNat + 32 = 11 ∨
        c.toNat + 32 = 12 ∨ c.toNat + 32 = 13 ∨
        c.toNat + 32 = 32 ∨ c.toNat + 32 = 160 ∨ c.toNat + 32 = 5760 ∨
        (8192 ≤ c.toNat + 32 ∧ c.toNat + 32 ≤ 8202) ∨ c.toNat + 32 = 8232 ∨
        c.toNat + 32 = 8233 ∨ c.toNat + 32 = 8239 ∨ c.toNat + 32 = 8287 ∨
        c.toNat + 32 = 12288 ∨ c.toNat + 32 = 65279) := by omega
    rw [decide_eq_false h1, decide_eq_false h2]
  · rfl

/-- Trimming commutes with ASCII lowercasing. -/
theorem jsTrim_map_jsToLowerChar (l : List Char) :
    jsTrim (l.map jsToLowerChar) = (jsTrim l).map jsToLowerChar := by
  have hcomp : (isJsWhitespace ∘ jsToLowerChar) = isJsWhitespace := by
    funext c
    exact isJsWhitespace_jsToLowerChar c
  unfold jsTrim
  rw [List.dropWhile_map, hcomp, ← List.map_reverse, List.dropWhile_map, hcomp,
    ← List.map_reverse]

/-- Unreserved URI characters are not JS whitespace. -/
theorem not_ws_of_isUriUnreserved {c : Char} (h : isUriUnreserved c = true) :
    isJsWhitespace c = false := by
  simp only [isUriUnreserved, decide_eq_true_eq] at h
  simp only [isJsWhitespace, decide_eq_false_iff_not]
  omega

/-- Hexadecimal digits are not JS whitespace. -/
theorem hexUpper_not_ws (n : Nat) : isJsWhitespace (hexUpper n) = false := by
  unfold hexUpper
  split <;> decide

/-- Percent-escapes contain no JS whitespace. -/
theorem percentEncodeChar_not_ws {c x : Char} (h : x ∈ percentEncodeChar c) :
    isJsWhitespace x = false := by
  unfold percentEncodeChar at h
  rw [List.mem_flatMap] at h
  obtain ⟨b, -, hb⟩ := h
  simp only [List.mem_cons, List.not_mem_nil, or_false] at hb
  rcases hb with rfl | rfl | rfl
  · decide
  · exact hexUpper_not_ws _
  · exact hexUpper_not_ws _

/-- `encodeURIComponent` output contains no JS whitespace. -/
theorem encodeURIComponentL_not_ws (l : List Char) :
    ∀ x ∈ encodeURIComponentL l, isJsWhitespace x = false := by
  intro x hx
  unfold encodeURIComponentL at hx
  rw [List.mem_flatMap] at hx
  obtain ⟨c, -, hc⟩ := hx
  split at hc
  · rw [List.mem_singleton] at hc
    subst hc
    exact not_ws_of_isUriUnreserved ‹_›
  · exact percentEncodeChar_not_ws hc

/-- Claim C8: the default slug function equals the pipeline
"lowercase, trim, collapse whitespace runs to one hyphen,
percent-encode" (the claim's ordering of lowercasing and trimming
agrees with the source's, since they commute), and its output never
contains whitespace.  Being a plain Lean function of the text, it is
pure by construction. -/
theorem claim8_default_slugify (s : String) :
    slugify s = ⟨encodeURIComponentL (collapseWs (jsTrim (s.data.map jsToLowerChar)))⟩ ∧
    ((slugify s).data.all fun c => !(isJsWhitespace c)) = true := by
  constructor
  · unfold slugify
    rw [jsTrim_map_jsToLowerChar]
  · rw [List.all_eq_true]
    intro c hc
    have hc' : c ∈ encodeURIComponentL (collapseWs ((jsTrim s.data).map jsToLowerChar)) := by
      simpa [slugify] using hc
    simp [encodeURIComponentL_not_ws _ c hc']

/-! ## Level bookkeeping for the tree builder (claim C2) -/

/-- The levels of every node of a spine stack except the root's own
level (the root is the last stack entry; its children's levels do
count). -/
def stackLevels : List TocItem → List JsNum
  | [] => []
  | [x] => nodeLevels x.children
  | x :: rest => x.level :: nodeLevels x.children ++ stackLevels rest

/-- The level of the bottom (root) entry of a spine stack. -/
def lastLevel : List TocItem → JsNum
  | [] => .inf
  | [x] => x.level
  | _ :: rest => lastLevel rest

theorem nodeLevels_append (l₁ l₂ : List TocItem) :
    nodeLevels (l₁ ++ l₂) = nodeLevels l₁ ++ nodeLevels l₂ := by
  induction l₁ with
  | nil => simp [nodeLevels]
  | cons x rest ih =>
    obtain ⟨lv, tx, an, ch⟩ := x
    simp [nodeLevels, ih]

theorem stackLevels_cons (x : TocItem) (rest : List TocItem) (h : rest ≠ []) :
    stackLevels (x :: rest) = x.level :: nodeLevels x.children ++ stackLevels rest := by
  cases rest with
  | nil => exact absurd rfl h
  | cons b r => rfl

theorem lastLevel_cons (x : TocItem) (rest : List TocItem) (h : rest ≠ []) :
    lastLevel (x :: rest) = lastLevel rest := by
  cases rest with
  | nil => exact absurd rfl h
  | cons b r => rfl

theorem collapseTop_ne_nil {st : List TocItem} (h : st ≠ []) : collapseTop st ≠ [] := by
  cases st with
  | nil => exact absurd rfl h
  | cons a rest =>
    cases rest with
    | nil => simp [collapseTop]
    | cons b r => simp [collapseTop]

theorem lastLevel_collapseTop (st : List TocItem) :
    lastLevel (collapseTop st) = lastLevel st := by
  match st with
  | [] => rfl
  | [a] => rfl
  | [a, b] => rfl
  | a :: b :: c :: r => rfl

theorem mem_stackLevels_collapseTop {st : List TocItem} {l : JsNum}
    (h : l ∈ stackLevels (collapseTop st)) : l ∈ stackLevels st := by
  match st with
  | [] => exact h
  | [a] => exact h
  | [⟨alv, atx, aan, ach⟩, ⟨blv, btx, ban, bch⟩] =>
    simp only [collapseTop, stackLevels, nodeLevels_append, nodeLevels,
      List.append_nil, List.mem_append, List.mem_cons] at h ⊢
    tauto
  | ⟨alv, atx, aan, ach⟩ :: ⟨blv, btx, ban, bch⟩ :: c :: r =>
    simp only [collapseTop, stackLevels, nodeLevels_append, nodeLevels,
      List.append_nil, List.mem_append, List.mem_cons] at h ⊢
    tauto

theorem collapseIter_ne_nil {st : List TocItem} (h : st ≠ []) :
    ∀ k, collapseIter k st ≠ [] := by
  intro k
  induction k generalizing st with
  | zero => exact h
  | succ k ih => exact ih (collapseTop_ne_nil h)

theorem lastLevel_collapseIter (k : Nat) (st : List TocItem) :
    lastLevel (collapseIter k st) = lastLevel st := by
  induction k generalizing st with
  | zero => rfl
  | succ k ih => rw [collapseIter, ih, lastLevel_collapseTop]

theorem mem_stackLevels_collapseIter {st : List TocItem} {l : JsNum} (k : Nat)
    (h : l ∈ stackLevels (collapseIter k st)) : l ∈ stackLevels st := by
  induction k generalizing st with
  | zero => exact h
  | succ k ih => exact mem_stackLevels_collapseTop (ih h)

theorem mem_stackLevels_collapseFrom {l : JsNum} :
    ∀ (rest : List TocItem) (a : TocItem),
      l ∈ nodeLevels (collapseFrom a rest).children → l ∈ stackLevels (a :: rest) := by
  intro rest
  induction rest with
  | nil => exact fun a h => h
  | cons b r ih =>
    intro a h
    have h2 := ih ⟨b.level, b.text, b.anchor, b.children ++ [a]⟩ h
    have heq : collapseTop (a :: b :: r) = ⟨b.level, b.text, b.anchor, b.children ++ [a]⟩ :: r :=
      rfl
    exact @mem_stackLevels_collapseTop (a :: b :: r) l (heq ▸ h2)

theorem level_collapseFrom :
    ∀ (rest : List TocItem) (a : TocItem),
      (collapseFrom a rest).level = lastLevel (a :: rest) := by
  intro rest
  induction rest with
  | nil => exact fun a => rfl
  | cons b r ih =>
    intro a
    have h2 := ih ⟨b.level, b.text, b.anchor, b.children ++ [a]⟩
    rw [collapseFrom, h2]
    cases r with
    | nil => rfl
    | cons c r' => rfl

/-- The three stack-shape facts `tocStep` preserves: non-emptiness,
the root's level at the bottom, and all other node levels drawn from
the allowed set. -/
def StackInv (levelSet : List JsNum) (rootLv : JsNum) (st : List TocItem) : Prop :=
  st ≠ [] ∧ lastLevel st = rootLv ∧ ∀ l ∈ stackLevels st, l ∈ levelSet

theorem stackInv_push {levelSet : List JsNum} {rootLv : JsNum} {st : List TocItem}
    (inv : StackInv levelSet rootLv st) (lv : JsNum) (tx an : Option String)
    (hlv : lv ∈ levelSet) :
    StackInv levelSet rootLv (⟨lv, tx, an, []⟩ :: st) := by
  obtain ⟨hne, hlast, hmem⟩ := inv
  refine ⟨by simp, ?_, ?_⟩
  · rw [lastLevel_cons _ _ hne]
    exact hlast
  · intro l hl
    rw [stackLevels_cons _ _ hne] at hl
    simp [nodeLevels] at hl
    rcases hl with rfl | hl
    · exact hlv
    · exact hmem l hl

theorem stackInv_collapseTop {levelSet : List JsNum} {rootLv : JsNum} {st : List TocItem}
    (inv : StackInv levelSet rootLv st) :
    StackInv levelSet rootLv (collapseTop st) := by
  obtain ⟨hne, hlast, hmem⟩ := inv
  exact ⟨collapseTop_ne_nil hne, by rw [lastLevel_collapseTop]; exact hlast,
    fun l hl => hmem l (mem_stackLevels_collapseTop hl)⟩

theorem stackInv_collapseIter {levelSet : List JsNum} {rootLv : JsNum} {st : List TocItem}
    (inv : StackInv levelSet rootLv st) (k : Nat) :
    StackInv levelSet rootLv (collapseIter k st) := by
  induction k generalizing st with
  | zero => exact inv
  | succ k ih => exact ih (stackInv_collapseTop inv)

theorem stackInv_pushFreshLoop {levelSet : List JsNum} {rootLv : JsNum} {st : List TocItem}
    (inv : StackInv levelSet rootLv st) (lv : Int) (hlv : JsNum.fin lv ∈ levelSet) :
    ∀ k, StackInv levelSet rootLv (pushFreshLoop lv k st) := by
  intro k
  induction k with
  | zero => exact inv
  | succ k ih => exact stackInv_push ih _ none none hlv

theorem stackLevels_setHead (tx an : Option String) (st : List TocItem) :
    stackLevels (setHead tx an st) = stackLevels st := by
  match st with
  | [] => rfl
  | [h] => rfl
  | h :: b :: r => rfl

theorem lastLevel_setHead (tx an : Option String) (st : List TocItem) :
    lastLevel (setHead tx an st) = lastLevel st := by
  match st with
  | [] => rfl
  | [h] => rfl
  | h :: b :: r => rfl

theorem stackInv_setHead {levelSet : List JsNum} {rootLv : JsNum} {st : List TocItem}
    (inv : StackInv levelSet rootLv st) (tx an : Option String) :
    StackInv levelSet rootLv (setHead tx an st) := by
  obtain ⟨hne, hlast, hmem⟩ := inv
  refine ⟨?_, ?_, ?_⟩
  · cases st with
    | nil => exact absurd rfl hne
    | cons h t => simp [setHead]
  · rw [lastLevel_setHead]
    exact hlast
  · intro l hl
    rw [stackLevels_setHead] at hl
    exact hmem l hl

theorem stackInv_tocStep {levelSet : List JsNum} {rootLv : JsNum} {st : List TocItem}
    (inv : StackInv levelSet rootLv st) (item : HeadlineItem)
    (hlv : JsNum.fin item.level ∈ levelSet) :
    StackInv levelSet rootLv (tocStep st item) := by
  have hne := inv.1
  cases st with
  | nil => exact absurd rfl hne
  | cons prev rest =>
    simp only [tocStep]
    split
    · exact stackInv_setHead (stackInv_pushFreshLoop inv item.level hlv _) _ _
    · split
      · exact stackInv_push (stackInv_collapseTop inv) _ _ _ hlv
      · split
        · exact stackInv_push (stackInv_collapseIter inv _) _ _ _ hlv
        · exact inv

theorem stackInv_foldl {levelSet : List JsNum} {rootLv : JsNum} :
    ∀ (items : List HeadlineItem) (st : List TocItem), StackInv levelSet rootLv st →
      (∀ d ∈ items, JsNum.fin d.level ∈ levelSet) →
      StackInv levelSet rootLv (items.foldl tocStep st) := by
  intro items
  induction items with
  | nil => exact fun st inv _ => inv
  | cons d ds ih =>
    intro st inv hall
    exact ih _ (stackInv_tocStep inv d (hall d (by simp)))
      fun e he => hall e (by simp [he])

/-! Order facts about `JsNum` and `getMinLevel`. -/

theorem JsNum.lt_irrefl (a : JsNum) : JsNum.lt a a = false := by
  cases a <;> simp [JsNum.lt]

theorem JsNum.le_trans {a b c : JsNum} (h1 : JsNum.lt b a = false)
    (h2 : JsNum.lt c b = false) : JsNum.lt c a = false := by
  cases a <;> cases b <;> cases c <;> (simp_all [JsNum.lt]; try omega)

theorem JsNum.min2_le_left (a b : JsNum) : JsNum.lt a (a.min2 b) = false := by
  unfold JsNum.min2
  split
  · rename_i h
    cases a <;> cases b <;> (simp_all [JsNum.lt]; try omega)
  · exact JsNum.lt_irrefl a

theorem JsNum.min2_le_right (a b : JsNum) : JsNum.lt b (a.min2 b) = false := by
  unfold JsNum.min2
  split
  · exact JsNum.lt_irrefl b
  · rename_i h
    exact Bool.eq_false_iff.mpr h

theorem foldl_min2_le_acc :
    ∀ (items : List HeadlineItem) (acc : JsNum),
      JsNum.lt acc (items.foldl (fun a it => a.min2 (.fin it.level)) acc) = false := by
  intro items
  induction items with
  | nil => exact fun acc => JsNum.lt_irrefl acc
  | cons x rest ih =>
    intro acc
    exact JsNum.le_trans (ih _) (JsNum.min2_le_left acc (.fin x.level))

theorem foldl_min2_le_mem :
    ∀ (items : List HeadlineItem) (acc : JsNum) (d : HeadlineItem), d ∈ items →
      JsNum.lt (.fin d.level)
        (items.foldl (fun a it => a.min2 (.fin it.level)) acc) = false := by
  intro items
  induction items with
  | nil => exact fun acc d hd => absurd hd (List.not_mem_nil d)
  | cons x rest ih =>
    intro acc d hd
    rcases List.mem_cons.mp hd with rfl | hd'
    · exact JsNum.le_trans (foldl_min2_le_acc rest _)
        (JsNum.min2_le_right acc (.fin d.level))
    · exact ih _ d hd'

theorem getMinLevel_le {items : List HeadlineItem} {d : HeadlineItem} (hd : d ∈ items) :
    JsNum.lt (.fin d.level) (getMinLevel items) = false :=
  foldl_min2_le_mem items .inf d hd

theorem sub1_lt_of_le {m : JsNum} {n : Int} (h : JsNum.lt (.fin n) m = false) :
    JsNum.lt m.sub1 (.fin n) = true := by
  cases m with
  | fin p => simp_all [JsNum.lt, JsNum.sub1]; omega
  | inf => simp [JsNum.lt] at h

/-- Claim C2 (amended): in every tree returned by the tree builder,
every non-root node's level is the level of some input descriptor, and
is therefore strictly greater than the root's level (the minimum input
level minus one).  Bridging synthetic nodes are created at the target
headline's level rather than at successive intermediate levels, so a
child's level need not strictly exceed its parent's (see
`claim2_counterexample`). -/
theorem claim2_node_levels (items : List HeadlineItem) (l : JsNum)
    (hmem : l ∈ nodeLevels (flatHeadlineItemsToNestedTree items).children) :
    l ∈ items.map (fun d => JsNum.fin d.level) ∧
    JsNum.lt (flatHeadlineItemsToNestedTree items).level l = true := by
  have inv0 : StackInv (items.map fun d => JsNum.fin d.level) (getMinLevel items).sub1
      [⟨(getMinLevel items).sub1, none, none, []⟩] :=
    ⟨by simp, rfl, by simp [stackLevels, nodeLevels]⟩
  have inv := stackInv_foldl items _ inv0
    (fun d hd => List.mem_map.mpr ⟨d, hd, rfl⟩)
  obtain ⟨hne, hlast, hmems⟩ := inv
  unfold flatHeadlineItemsToNestedTree at hmem ⊢
  obtain ⟨h, t, hht⟩ : ∃ h t,
      items.foldl tocStep [⟨(getMinLevel items).sub1, none, none, []⟩] = h :: t := by
    cases hst : items.foldl tocStep [⟨(getMinLevel items).sub1, none, none, []⟩] with
    | nil => exact absurd hst hne
    | cons h t => exact ⟨h, t, rfl⟩
  rw [hht] at hmem hlast hmems ⊢
  have hmem' := hmems l (mem_stackLevels_collapseFrom t h (by simpa [collapseAll] using hmem))
  refine ⟨hmem', ?_⟩
  have hl : (collapseAll (h :: t)).level = (getMinLevel items).sub1 := by
    rw [collapseAll, level_collapseFrom, hlast]
  rw [hl]
  obtain ⟨d, hd, rfl⟩ := List.mem_map.mp hmem'
  exact sub1_lt_of_le (getMinLevel_le hd)

/-- Witness for `claim2_node_levels`: the single descriptor at level 2
produces one node, whose level 2 is drawn from the input and exceeds
the root's level 1. -/
theorem claim2_node_levels_witness :
    JsNum.fin 2 ∈ nodeLevels (flatHeadlineItemsToNestedTree [⟨2, some "X", some "x"⟩]).children ∧
    JsNum.fin 2 ∈ [⟨2, some "X", some "x"⟩].map (fun d : HeadlineItem => JsNum.fin d.level) ∧
    JsNum.lt (flatHeadlineItemsToNestedTree [⟨2, some "X", some "x"⟩]).level (.fin 2) = true := by
  have hmem : JsNum.fin 2 ∈
      nodeLevels (flatHeadlineItemsToNestedTree [⟨2, some "X", some "x"⟩]).children := by
    rw [show flatHeadlineItemsToNestedTree [⟨2, some "X", some "x"⟩] =
      ⟨.fin 1, none, none, [⟨.fin 2, some "X", some "x", []⟩]⟩ from rfl]
    simp [nodeLevels]
  exact ⟨hmem, (claim2_node_levels _ _ hmem).1, (claim2_node_levels _ _ hmem).2⟩

/-! ## Pre-order bookkeeping for the instrumented builder (claim C3) -/

/-- The pre-order contents of a single node: its own content followed
by its children's. -/
def nodePre (x : TocItemI) : List NodeContent :=
  ⟨x.fromDescriptor, x.level, x.text, x.anchor⟩ :: preorderContents x.children

/-- The pre-order contents of the tree a spine stack collapses to:
the root (bottom entry) comes first, the focus (top entry) last. -/
def spreI : List TocItemI → List NodeContent
  | [] => []
  | x :: rest => spreI rest ++ nodePre x

theorem preorderContents_cons (x : TocItemI) (rest : List TocItemI) :
    preorderContents (x :: rest) = nodePre x ++ preorderContents rest := by
  obtain ⟨lv, tx, an, fd, ch⟩ := x
  simp [preorderContents, nodePre]

theorem preorderContents_append (l₁ l₂ : List TocItemI) :
    preorderContents (l₁ ++ l₂) = preorderContents l₁ ++ preorderContents l₂ := by
  induction l₁ with
  | nil => simp [preorderContents]
  | cons x rest ih =>
    rw [List.cons_append, preorderContents_cons, preorderContents_cons, ih,
      List.append_assoc]

theorem spreI_collapseTopI (st : List TocItemI) :
    spreI (collapseTopI st) = spreI st := by
  match st with
  | [] => rfl
  | [a] => rfl
  | a :: b :: r =>
    show spreI (⟨b.level, b.text, b.anchor, b.fromDescriptor, b.children ++ [a]⟩ :: r) = _
    simp [spreI, nodePre, preorderContents_append, preorderContents_cons,
      preorderContents, List.append_assoc]

theorem spreI_collapseIterI (k : Nat) (st : List TocItemI) :
    spreI (collapseIterI k st) = spreI st := by
  induction k generalizing st with
  | zero => rfl
  | succ k ih => rw [collapseIterI, ih, spreI_collapseTopI]

theorem spreI_pushFreshLoopI (lv : Int) (k : Nat) (st : List TocItemI) :
    spreI (pushFreshLoopI lv k st) =
      spreI st ++ List.replicate k ⟨false, .fin lv, none, none⟩ := by
  induction k generalizing st with
  | zero => simp [pushFreshLoopI]
  | succ k ih =>
    rw [pushFreshLoopI, spreI, ih, List.replicate_succ']
    simp [nodePre, preorderContents, List.append_assoc]

theorem collapseTopI_ne_nil {st : List TocItemI} (h : st ≠ []) : collapseTopI st ≠ [] := by
  match st with
  | [] => exact absurd rfl h
  | [a] => simp [collapseTopI]
  | a :: b :: r => simp [collapseTopI]

theorem collapseIterI_ne_nil {st : List TocItemI} (h : st ≠ []) :
    ∀ k, collapseIterI k st ≠ [] := by
  intro k
  induction k generalizing st with
  | zero => exact h
  | succ k ih => exact ih (collapseTopI_ne_nil h)

/-- One instrumented builder step appends exactly the processed
descriptor's content to the marked part of the tree's pre-order, and
leaves every synthetic filler unmarked. -/
theorem tocStepI_filter_spreI (st : List TocItemI) (item : HeadlineItem) (hne : st ≠ []) :
    (spreI (tocStepI st item)).filter (·.fromDescriptor) =
      (spreI st).filter (·.fromDescriptor) ++ [descriptorContent item] ∧
    tocStepI st item ≠ [] := by
  cases st with
  | nil => exact absurd rfl hne
  | cons prev rest =>
    simp only [tocStepI]
    split
    · -- level increase: diff ≥ 1 fresh unmarked nodes, the last one
      -- overwritten with the descriptor's marked content
      rename_i hlt
      have hdiff : ∃ d, (match prev.level with
          | JsNum.fin p => (item.level - p).toNat
          | JsNum.inf => 0) = d + 1 := by
        cases hpl : prev.level with
        | fin p =>
          rw [hpl] at hlt
          simp only [JsNum.lt, decide_eq_true_eq] at hlt
          refine ⟨(item.level - p).toNat - 1, ?_⟩
          show (item.level - p).toNat = _
          omega
        | inf => rw [hpl] at hlt; simp [JsNum.lt] at hlt
      obtain ⟨d, hd⟩ := hdiff
      rw [hd, pushFreshLoopI]
      constructor
      · rw [setHeadI, spreI, spreI_pushFreshLoopI, spreI]
        simp only [nodePre, preorderContents, descriptorContent, List.filter_append,
          List.filter_replicate, List.filter_cons, List.append_assoc]
        split <;> simp
      · simp [setHeadI]
    · -- level equal or smaller
      split
      · constructor
        · rw [pushItemI, spreI, spreI_collapseTopI]
          simp [nodePre, preorderContents, descriptorContent, List.filter_append]
        · simp [pushItemI]
      · split
        · constructor
          · rw [pushItemI, spreI, spreI_collapseIterI]
            simp [nodePre, preorderContents, descriptorContent, List.filter_append]
          · simp [pushItemI]
        · -- the trichotomy of JS numeric comparison leaves no fourth case
          rename_i h1 h2 h3
          exfalso
          cases hpl : prev.level with
          | fin p =>
            rw [hpl] at h1 h2 h3
            simp only [JsNum.lt, decide_eq_true_eq, JsNum.fin.injEq] at h1 h2 h3
            omega
          | inf =>
            rw [hpl] at h3
            simp [JsNum.lt] at h3

theorem foldl_tocStepI_filter_spreI :
    ∀ (items : List HeadlineItem) (st : List TocItemI), st ≠ [] →
      (spreI (items.foldl tocStepI st)).filter (·.fromDescriptor) =
        (spreI st).filter (·.fromDescriptor) ++ items.map descriptorContent ∧
      items.foldl tocStepI st ≠ [] := by
  intro items
  induction items with
  | nil => exact fun st h => ⟨by simp, h⟩
  | cons d ds ih =>
    intro st hne
    obtain ⟨h1, h2⟩ := tocStepI_filter_spreI st d hne
    obtain ⟨h3, h4⟩ := ih (tocStepI st d) h2
    exact ⟨by rw [List.foldl_cons, h3, h1, List.map_cons, List.append_assoc,
      List.singleton_append], h4⟩

theorem preorderContents_collapseFromI :
    ∀ (rest : List TocItemI) (a : TocItemI),
      preorderContents [collapseFromI a rest] = spreI (a :: rest) := by
  intro rest
  induction rest with
  | nil =>
    intro a
    rw [collapseFromI, preorderContents_cons]
    simp [spreI, preorderContents]
  | cons b r ih =>
    intro a
    rw [collapseFromI, ih]
    show spreI (⟨b.level, b.text, b.anchor, b.fromDescriptor, b.children ++ [a]⟩ :: r) = _
    simp [spreI, nodePre, preorderContents_append, preorderContents_cons,
      preorderContents, List.append_assoc]

/-! ## Erasing the ghost flag recovers the plain builder -/

theorem eraseForest_cons (x : TocItemI) (l : List TocItemI) :
    eraseForest (x :: l) = eraseItem x :: eraseForest l := by
  obtain ⟨lv, tx, an, fd, ch⟩ := x
  simp [eraseForest, eraseItem]

theorem eraseForest_append (l₁ l₂ : List TocItemI) :
    eraseForest (l₁ ++ l₂) = eraseForest l₁ ++ eraseForest l₂ := by
  induction l₁ with
  | nil => simp [eraseForest]
  | cons x rest ih =>
    rw [List.cons_append, eraseForest_cons, eraseForest_cons, ih, List.cons_append]

theorem eraseStack_collapseTop (st : List TocItemI) :
    (collapseTopI st).map eraseItem = collapseTop (st.map eraseItem) := by
  match st with
  | [] => rfl
  | [a] => rfl
  | a :: b :: r =>
    show eraseItem ⟨b.level, b.text, b.anchor, b.fromDescriptor, b.children ++ [a]⟩ ::
        r.map eraseItem = _
    simp [eraseItem, eraseForest, eraseForest_append, eraseForest_cons, collapseTop]

theorem eraseStack_collapseIter (k : Nat) (st : List TocItemI) :
    (collapseIterI k st).map eraseItem = collapseIter k (st.map eraseItem) := by
  induction k generalizing st with
  | zero => rfl
  | succ k ih => rw [collapseIterI, collapseIter, ih, eraseStack_collapseTop]

theorem eraseStack_pushFreshLoop (lv : Int) (k : Nat) (st : List TocItemI) :
    (pushFreshLoopI lv k st).map eraseItem = pushFreshLoop lv k (st.map eraseItem) := by
  induction k generalizing st with
  | zero => rfl
  | succ k ih =>
    rw [pushFreshLoopI, pushFreshLoop, List.map_cons, ih]
    simp [eraseItem, eraseForest]

theorem eraseStack_setHead (tx an : Option String) (st : List TocItemI) :
    (setHeadI tx an st).map eraseItem = setHead tx an (st.map eraseItem) := by
  cases st with
  | nil => rfl
  | cons h t => rfl

theorem eraseStack_tocStep (st : List TocItemI) (item : HeadlineItem) :
    (tocStepI st item).map eraseItem = tocStep (st.map eraseItem) item := by
  cases st with
  | nil => rfl
  | cons prev rest =>
    show (tocStepI (prev :: rest) item).map eraseItem =
      tocStep (eraseItem prev :: rest.map eraseItem) item
    simp only [tocStepI, tocStep]
    rw [show (eraseItem prev).level = prev.level from rfl]
    split
    · rw [eraseStack_setHead, eraseStack_pushFreshLoop, List.map_cons]
    · split
      · rw [pushItemI, pushItem, List.map_cons, eraseStack_collapseTop, List.map_cons]
        simp [eraseItem, eraseForest]
      · split
        · rw [pushItemI, pushItem, List.map_cons, eraseStack_collapseIter, List.map_cons]
          simp [eraseItem, eraseForest]
        · rfl

theorem eraseStack_foldl :
    ∀ (items : List HeadlineItem) (st : List TocItemI),
      (items.foldl tocStepI st).map eraseItem = items.foldl tocStep (st.map eraseItem) := by
  intro items
  induction items with
  | nil => exact fun st => rfl
  | cons d ds ih =>
    intro st
    rw [List.foldl_cons, List.foldl_cons, ih, eraseStack_tocStep]

theorem eraseItem_collapseFrom :
    ∀ (rest : List TocItemI) (a : TocItemI),
      eraseItem (collapseFromI a rest) = collapseFrom (eraseItem a) (rest.map eraseItem) := by
  intro rest
  induction rest with
  | nil => exact fun a => rfl
  | cons b r ih =>
    intro a
    rw [collapseFromI, ih, List.map_cons, collapseFrom]
    congr 1
    simp [eraseItem, eraseForest, eraseForest_append, eraseForest_cons]

theorem eraseItem_collapseAll (st : List TocItemI) :
    eraseItem (collapseAllI st) = collapseAll (st.map eraseItem) := by
  cases st with
  | nil => simp [collapseAllI, collapseAll, eraseItem, eraseForest]
  | cons h t => rw [collapseAllI, List.map_cons, collapseAll, eraseItem_collapseFrom]

/-- The instrumentation adds no behaviour: erasing the ghost flag from
the instrumented builder's output yields exactly the plain builder's
tree. -/
theorem erase_buildI (items : List HeadlineItem) :
    eraseItem (flatHeadlineItemsToNestedTreeI items) =
      flatHeadlineItemsToNestedTree items := by
  rw [flatHeadlineItemsToNestedTreeI, flatHeadlineItemsToNestedTree,
    eraseItem_collapseAll, eraseStack_foldl, List.map_cons, List.map_nil]
  simp [eraseItem, eraseForest]

/-- Claim C3: a pre-order traversal of the built tree filtered to the
nodes that received their content from a descriptor yields exactly the
input descriptors, in order (instrumented builder); and the
instrumented builder erases to `flatHeadlineItemsToNestedTree`
itself. -/
theorem claim3_order_preservation (items : List HeadlineItem) :
    (preorderContents [flatHeadlineItemsToNestedTreeI items]).filter (·.fromDescriptor) =
      items.map descriptorContent ∧
    eraseItem (flatHeadlineItemsToNestedTreeI items) =
      flatHeadlineItemsToNestedTree items := by
  refine ⟨?_, erase_buildI items⟩
  obtain ⟨hfilter, hne⟩ := foldl_tocStepI_filter_spreI items
    [⟨(getMinLevel items).sub1, none, none, false, []⟩] (by simp)
  rw [flatHeadlineItemsToNestedTreeI]
  obtain ⟨h, t, hht⟩ : ∃ h t,
      items.foldl tocStepI [⟨(getMinLevel items).sub1, none, none, false, []⟩] = h :: t := by
    cases hst : items.foldl tocStepI
        [⟨(getMinLevel items).sub1, none, none, false, []⟩] with
    | nil => exact absurd hst hne
    | cons h t => exact ⟨h, t, rfl⟩
  rw [hht, collapseAllI, preorderContents_collapseFromI, ← hht, hfilter]
  simp [spreI, nodePre, preorderContents]

end MarkdownItToc
